import Mathlib

/-!
A shallow embedding of the device core of `wireguard-go` (files
`device.go` and `device/config.go`) together with proofs of the
specification claims about it.

Go strings are embedded as `List Char`, Go maps as association lists,
time instants as `Int`, and the external collaborators (Noise key
arithmetic, bind factory, endpoint factory, peer workers) as explicit
parameter records so that every operation of the core is a pure,
executable Lean function of the device state.
-/

namespace WGDevice

/-- A Go string, embedded as its list of characters. -/
abbrev GoString := List Char

/-- `strings.Split(s, ",")`: splits `s` at every comma; the empty string
splits to one empty component, and `n` commas yield `n + 1` components. -/
def splitOnComma : GoString → List GoString
  | [] => [[]]
  | c :: rest =>
    if c = ',' then [] :: splitOnComma rest
    else
      match splitOnComma rest with
      | [] => [[c]]
      | p :: ps => (c :: p) :: ps

/-- `strings.Join(ps, ",")`. -/
def joinComma (ps : List GoString) : GoString := List.intercalate [','] ps

/-- The byte-wise (here character-wise) lexicographic order Go's
`sort.Strings` sorts by, as a boolean relation. -/
def lexLe (a b : GoString) : Bool := decide (a ≤ b)

/-- `sort.Strings`: sorts a list of strings lexicographically. -/
def sortStrings (l : List GoString) : List GoString := l.mergeSort lexLe

/-- `endpointsEqual` from `device/config.go` lines 163-179: fast path for
identical strings, then a length check, then comparison of the joined
sorted comma-separated components. -/
def endpointsEqual (x y : GoString) : Bool :=
  if x = y then true
  else
    let xs := splitOnComma x
    let ys := splitOnComma y
    if xs.length ≠ ys.length then false
    else decide (joinComma (sortStrings xs) = joinComma (sortStrings ys))

/-- A `netaddr.IPPrefix` value: the external CIDR type, abstracted to its
identity as a decidable-equality record. -/
structure Cidr where
  ip : Nat
  bits : Nat
deriving DecidableEq

/-- `cidrsEqual` from `device/config.go` lines 181-208: a length check,
an exact in-order comparison (the `exact` loop, which given equal lengths
is equality of the two lists), and otherwise a membership check of every
element of `y` in the set of elements of `x`. -/
def cidrsEqual (x y : List Cidr) : Bool :=
  if x.length ≠ y.length then false
  else if x = y then true
  else y.all (fun v => x.contains v)

/- Lemmas about the comma splitting and joining. -/

theorem splitOnComma_ne_nil (s : GoString) : splitOnComma s ≠ [] := by
  induction s with
  | nil => simp [splitOnComma]
  | cons c rest ih =>
    simp only [splitOnComma]
    split
    · simp
    · split
      · simp
      · simp

theorem mem_splitOnComma_no_comma (s : GoString) :
    ∀ p ∈ splitOnComma s, ',' ∉ p := by
  induction s with
  | nil => intro p hp; simp [splitOnComma] at hp; simp [hp]
  | cons c rest ih =>
    intro p hp
    simp only [splitOnComma] at hp
    by_cases hc : c = ','
    · simp [hc] at hp
      rcases hp with h | h
      · simp [h]
      · exact ih p h
    · simp [hc] at hp
      rcases hsplit : splitOnComma rest with _ | ⟨q, qs⟩
      · exact absurd hsplit (splitOnComma_ne_nil rest)
      · rw [hsplit] at hp
        simp at hp
        rcases hp with h | h
        · subst h
          intro hmem
          simp at hmem
          rcases hmem with h | h
          · exact hc h.symm
          · exact ih q (by rw [hsplit]; simp) h
        · exact ih p (by rw [hsplit]; simp [h])

theorem splitOnComma_no_comma (s : GoString) (h : ',' ∉ s) :
    splitOnComma s = [s] := by
  induction s with
  | nil => simp [splitOnComma]
  | cons c rest ih =>
    simp at h
    simp only [splitOnComma]
    rw [if_neg (fun hc => h.1 hc.symm), ih h.2]

theorem splitOnComma_append (p t : GoString) (h : ',' ∉ p) :
    splitOnComma (p ++ ',' :: t) = p :: splitOnComma t := by
  induction p with
  | nil => simp [splitOnComma]
  | cons c rest ih =>
    simp at h
    simp only [List.cons_append, splitOnComma]
    rw [if_neg (fun hc => h.1 hc.symm)]
    simp only [List.append_eq]
    rw [ih h.2]

theorem splitOnComma_joinComma (ps : List GoString) (hne : ps ≠ [])
    (hfree : ∀ p ∈ ps, ',' ∉ p) : splitOnComma (joinComma ps) = ps := by
  induction ps with
  | nil => exact absurd rfl hne
  | cons p rest ih =>
    cases rest with
    | nil =>
      simp only [joinComma, List.intercalate]
      simp [splitOnComma_no_comma p (hfree p (by simp))]
    | cons q qs =>
      have hj : joinComma (p :: q :: qs) = p ++ ',' :: joinComma (q :: qs) := by
        simp [joinComma, List.intercalate]
      rw [hj, splitOnComma_append p _ (hfree p (by simp)),
        ih (by simp) (fun r hr => hfree r (List.mem_cons_of_mem p hr))]

theorem lexLe_trans : ∀ a b c : GoString,
    lexLe a b = true → lexLe b c = true → lexLe a c = true := by
  intro a b c hab hbc
  simp only [lexLe, decide_eq_true_eq] at *
  exact le_trans hab hbc

theorem lexLe_total : ∀ a b : GoString, (lexLe a b || lexLe b a) = true := by
  intro a b
  simp only [lexLe, Bool.or_eq_true, decide_eq_true_eq]
  exact le_total a b

theorem sortStrings_perm (l : List GoString) : (sortStrings l).Perm l :=
  List.mergeSort_perm l lexLe

theorem sortStrings_sorted (l : List GoString) :
    List.Sorted (· ≤ ·) (sortStrings l) := by
  have h := List.sorted_mergeSort lexLe_trans lexLe_total l
  simp only [lexLe, decide_eq_true_eq] at h
  exact h

theorem sortStrings_eq_iff (xs ys : List GoString) :
    sortStrings xs = sortStrings ys ↔ xs.Perm ys := by
  constructor
  · intro h
    exact ((sortStrings_perm xs).symm.trans (h ▸ sortStrings_perm ys)).symm.symm
  · intro h
    exact List.eq_of_perm_of_sorted
      (((sortStrings_perm xs).trans h).trans (sortStrings_perm ys).symm)
      (sortStrings_sorted xs) (sortStrings_sorted ys)

theorem joinComma_sortStrings_inj (x y : GoString)
    (h : joinComma (sortStrings (splitOnComma x))
       = joinComma (sortStrings (splitOnComma y))) :
    sortStrings (splitOnComma x) = sortStrings (splitOnComma y) := by
  have hne : ∀ s : GoString, sortStrings (splitOnComma s) ≠ [] := by
    intro s h0
    have hl := (sortStrings_perm (splitOnComma s)).length_eq
    rw [h0] at hl
    exact splitOnComma_ne_nil s (List.length_eq_zero.mp hl.symm)
  have hfree : ∀ s : GoString, ∀ p ∈ sortStrings (splitOnComma s), ',' ∉ p :=
    fun s p hp =>
      mem_splitOnComma_no_comma s p ((sortStrings_perm (splitOnComma s)).subset hp)
  have hx := splitOnComma_joinComma (sortStrings (splitOnComma x)) (hne x) (hfree x)
  have hy := splitOnComma_joinComma (sortStrings (splitOnComma y)) (hne y) (hfree y)
  calc sortStrings (splitOnComma x)
      = splitOnComma (joinComma (sortStrings (splitOnComma x))) := hx.symm
    _ = splitOnComma (joinComma (sortStrings (splitOnComma y))) := by rw [h]
    _ = sortStrings (splitOnComma y) := hy

/-- `endpointsEqual` decides permutation-equality (unordered-collection
equality) of the comma-separated components of its arguments. -/
theorem endpointsEqual_iff_perm (x y : GoString) :
    endpointsEqual x y = true ↔ (splitOnComma x).Perm (splitOnComma y) := by
  unfold endpointsEqual
  by_cases hxy : x = y
  · subst hxy
    simp
  · rw [if_neg hxy]
    by_cases hlen : (splitOnComma x).length = (splitOnComma y).length
    · rw [if_neg (by simpa using hlen)]
      simp only [decide_eq_true_eq]
      constructor
      · intro h
        exact (sortStrings_eq_iff _ _).mp (joinComma_sortStrings_inj x y h)
      · intro h
        rw [(sortStrings_eq_iff _ _).mpr h]
    · rw [if_pos (by simpa using hlen)]
      simp only [Bool.false_eq_true, false_iff]
      intro h
      exact hlen h.length_eq

/-- `cidrsEqual x y` is the conjunction of the length check and the
containment of every element of `y` among the elements of `x`. -/
theorem cidrsEqual_iff (x y : List Cidr) :
    cidrsEqual x y = true ↔ (x.length = y.length ∧ ∀ v ∈ y, v ∈ x) := by
  unfold cidrsEqual
  by_cases hlen : x.length = y.length
  · rw [if_neg (by simpa using hlen)]
    by_cases hxy : x = y
    · subst hxy
      simp
    · rw [if_neg hxy]
      simp only [List.all_eq_true, List.elem_eq_mem, decide_eq_true_eq]
      constructor
      · exact fun h => ⟨hlen, h⟩
      · exact fun h => h.2
  · rw [if_pos (by simpa using hlen)]
    simp only [Bool.false_eq_true, false_iff, not_and]
    exact fun h => absurd h hlen

/-- For duplicate-free lists, `cidrsEqual` does decide unordered-set
equality. -/
theorem cidrsEqual_nodup_iff (x y : List Cidr) (hx : x.Nodup) (hy : y.Nodup) :
    cidrsEqual x y = true ↔ ∀ v, v ∈ x ↔ v ∈ y := by
  rw [cidrsEqual_iff]
  constructor
  · intro ⟨hlen, hsub⟩ v
    have hperm : y.Perm x :=
      (hy.subperm (fun a ha => hsub a ha)).perm_of_length_le (le_of_eq hlen)
    exact (hperm.mem_iff).symm
  · intro h
    have hxy : x.Perm y := (List.perm_ext_iff_of_nodup hx hy).mpr h
    exact ⟨hxy.length_eq, fun v hv => (h v).mpr hv⟩

/-! ## The device data model

`device.go` lines 25-100, restricted to the state the claims range over.
Locks, wait groups, loggers, pools, the index table, the cookie checker
and the rate limiter are external or synchronisation-only and carry no
data the claims mention.
-/

/-- A Noise private or public key (32 bytes in the source); `0` is the
all-zero key. -/
abbrev Key := Nat

/-- The external Curve25519 operations (`NoisePrivateKey.publicKey` and
`NoisePrivateKey.sharedSecret` live outside the device core): `pub`
derives the public key of a (non-zero) private key and `dh` is the
static-static Diffie-Hellman shared secret. -/
structure Crypto where
  pub : Key → Key
  dh : Key → Key → Key

/-- The public key the source computes in `SetPrivateKey` lines 264-267:
the zero key when the private key is zero (device disabled), otherwise
the derived public key. -/
def pubOf (c : Crypto) (sk : Key) : Key := if sk = 0 then 0 else c.pub sk

/-- A `conn.Endpoint`: its address list (`Addrs()`, a comma-separated
string in the source) and whether its cached source address has been
cleared (`ClearSrc()`). -/
structure Endpoint where
  addrs : GoString
  srcCleared : Bool
deriving DecidableEq

/-- An abstract `conn.Bind` handle. -/
abbrev Bind := Nat

/-- A `Peer` as the device core sees it: the handshake fields
(`remoteStatic`, `precomputedStaticStatic`, `lastSentHandshake`), the
endpoint, the keepalive interval, the allowed-IP prefixes, and flags
recording the effect of `ExpireCurrentKeypairs`, `Start` and `Stop`
(whose bodies live in `peer.go` and `timers.go`, outside this file's
sources). -/
structure Peer where
  remoteStatic : Key
  precomputedStaticStatic : Key
  lastSentHandshake : Int
  endpoint : Option Endpoint
  persistentKeepaliveInterval : Nat
  allowedIPs : List Cidr
  keypairsExpired : Bool
  started : Bool
  stopped : Bool
deriving DecidableEq

/-- Modelled from the spec: `Peer.Stop` (not under `src/`; §4.2-§4.3 of
the spec: "then call `peer.Stop()`", which halts the peer's workers). -/
def Peer.stop (p : Peer) : Peer := { p with stopped := true }

/-- Modelled from the spec: `Peer.ExpireCurrentKeypairs` (not under
`src/`; spec §4.3 step 10: "expire its current keypairs"). -/
def Peer.expireCurrentKeypairs (p : Peer) : Peer := { p with keypairsExpired := true }

/-- Modelled from the spec: `Peer.Start` (not under `src/`; spec §4.2:
"for every peer call `Start()` (which schedules handshake timers and
starts per-peer workers)"). -/
def Peer.start (p : Peer) : Peer := { p with started := true }

/-- The `Device` state of `device.go` lines 25-100: the atomic flags, the
state machine fields (`state.current`, `state.changing`), the static
identity, the peer map (an association list keyed by public key), the
allowed-IPs trie (an association from prefix to owning peer key), the
`net` fields (bind, port, fwmark), the handshake-queue depth and the
under-load latch, plus ghost logs of the `SendKeepalive` and
`createEndpoint` calls the device makes. -/
structure Device where
  isUp : Bool
  isClosed : Bool
  stateCurrent : Bool
  stateChanging : Bool
  skipBindUpdate : Bool
  privateKey : Key
  publicKey : Key
  peers : List (Key × Peer)
  allowedips : List (Cidr × Key)
  bind : Option Bind
  port : Nat
  fwmark : Nat
  handshakeQueueLen : Nat
  underLoadUntil : Int
  sentKeepalives : List Key
  endpointCalls : List (Key × GoString)
deriving DecidableEq

/-- The outcomes of the external calls the device makes: the bind factory
(`createBind`), the route listener (`startRouteListener`), `SetMark` and
`Close` on a bind, `Peer.Start`, `NewPeer` and the endpoint factory
(`createEndpoint`). -/
structure Env where
  createBind : Nat → Option (Bind × Nat)
  routeListenerOk : Bind → Bool
  setMarkOk : Bind → Nat → Bool
  bindCloseOk : Bind → Bool
  startOk : Key → Bool
  newPeerOk : Key → Bool
  createEndpoint : Key → GoString → Option Endpoint

/-- The errors the modelled operations surface. -/
inductive Err where
  | deviceClosed
  | portInUse
  | bindCloseFailed
  | bindCreateFailed
  | routeListenerFailed
  | setMarkFailed
  | peerStartFailed (k : Key)
  | newPeerFailed (k : Key)
  | endpointFailed (k : Key)
  | bindUpdateWrap (e : Err)
deriving DecidableEq

/-- Constants of the source (`UnderLoadQueueSize`, `UnderLoadAfterTime`,
`RekeyTimeout` are defined outside the two source files); they are kept
abstract as parameters. -/
structure Consts where
  underLoadQueueSize : Nat
  underLoadAfterTime : Int
  rekeyTimeout : Int

/-! ## Peer set operations (`device.go` lines 127-139, 405-441) -/

/-- `AllowedIPs.RemoveByPeer` (external trie, observed through the
association `allowedips`): drop every route owned by the peer. -/
def aipRemoveByPeer (k : Key) (t : List (Cidr × Key)) : List (Cidr × Key) :=
  t.filter (fun e => e.2 ≠ k)

/-- `AllowedIPs.Insert` (external trie): route `pfx` to peer `k`,
replacing a previous owner of the same prefix. -/
def aipInsert (pfx : Cidr) (k : Key) (t : List (Cidr × Key)) : List (Cidr × Key) :=
  (pfx, k) :: t.filter (fun e => e.1 ≠ pfx)

/-- `unsafeRemovePeer`, `device.go` lines 132-139: detach the peer from
the allowed-IPs trie and delete it from the peer map (the cached `empty`
flag is derivable as `peers = []` and is not stored separately). -/
def unsafeRemovePeer (d : Device) (k : Key) : Device :=
  { d with
    allowedips := aipRemoveByPeer k d.allowedips,
    peers := d.peers.filter (fun e => e.1 ≠ k) }

/-- `LookupPeer`, `device.go` lines 405-410. -/
def LookupPeer (d : Device) (pk : Key) : Option Peer :=
  (d.peers.find? (fun e => e.1 = pk)).map (fun e => e.2)

/-- `RemovePeer`, `device.go` lines 413-424: remove under the lock, then
stop the removed peer (whose record thereby leaves the state). -/
def RemovePeer (d : Device) (k : Key) : Device :=
  match LookupPeer d k with
  | none => d
  | some _ => unsafeRemovePeer d k

/-- `RemoveAllPeers`, `device.go` lines 426-441: remove every peer (and
stop each), ending with a fresh empty map. -/
def RemoveAllPeers (d : Device) : Device :=
  let d := d.peers.foldl (fun acc e => unsafeRemovePeer acc e.1) d
  { d with peers := [] }

/-- `SetPrivateKey`, `device.go` lines 237-299.  Returns the updated
device and the `peersToStop` list with `Stop` applied to each element,
mirroring the deferred stop loop of lines 238-243 (those records no
longer exist in the device state).  The delete-inside-`range` loop of
lines 269-274 is modelled as the equivalent filter, with the allowed-IPs
detach of `unsafeRemovePeer` applied for every removed peer; the cookie
checker re-initialisation (line 280) is external state.  The source's
error result is always `nil`. -/
def SetPrivateKey (c : Crypto) (sk : Key) (d : Device) :
    Device × List (Key × Peer) :=
  if sk = d.privateKey then (d, [])
  else
    let publicKey := pubOf c sk
    let removed := d.peers.filter (fun e => e.2.remoteStatic = publicKey)
    let d := { d with
      peers := d.peers.filter (fun e => e.2.remoteStatic ≠ publicKey),
      allowedips := d.allowedips.filter (fun e => removed.all (fun r => r.1 ≠ e.2)) }
    let d := { d with privateKey := sk, publicKey := publicKey }
    let d := { d with peers := d.peers.map (fun e : Key × Peer =>
      (e.1, { e.2 with precomputedStaticStatic := c.dh sk e.2.remoteStatic })) }
    let d := { d with peers := d.peers.map (fun e : Key × Peer =>
      (e.1, e.2.expireCurrentKeypairs)) }
    (d, removed.map (fun e => (e.1, e.2.stop)))

/-! ## Under-load detection (`device.go` lines 220-235) -/

/-- `IsUnderLoad`: if the handshake queue depth has reached
`UnderLoadQueueSize`, latch `underLoadUntil := now + UnderLoadAfterTime`
and report `true`; otherwise report whether the stored latch instant is
still after `now`. -/
def IsUnderLoad (cs : Consts) (now : Int) (d : Device) : Bool × Device :=
  let underLoad := decide (d.handshakeQueueLen ≥ cs.underLoadQueueSize)
  if underLoad then
    (true, { d with underLoadUntil := now + cs.underLoadAfterTime })
  else
    (decide (now < d.underLoadUntil), d)

/-! ## Bind lifecycle (`device.go` lines 512-643) -/

/-- `unsafeCloseBind`, `device.go` lines 512-524: cancel the route
listener (external), close and clear the bind; the close error, if any,
is the result (the bind is cleared regardless). -/
def unsafeCloseBind (env : Env) (d : Device) : Device × Option Err :=
  match d.bind with
  | none => (d, none)
  | some b =>
    ({ d with bind := none },
     if env.bindCloseOk b then none else some Err.bindCloseFailed)

/-- `BindClose`, `device.go` lines 638-643. -/
def BindClose (env : Env) (d : Device) : Device × Option Err :=
  unsafeCloseBind env d

/-- The clear-cached-source-addresses loop of `BindUpdate`
(`device.go` lines 614-624): `ClearSrc()` on every peer endpoint. -/
def clearPeerSrcs (d : Device) : Device :=
  { d with peers := d.peers.map (fun e : Key × Peer =>
      (e.1, { e.2 with
        endpoint := Option.map (fun ep => { ep with srcCleared := true }) e.2.endpoint })) }

/-- `BindUpdate`, `device.go` lines 567-636: optional skip fast path;
close the existing bind; then, only if the device is up, create a bind on
the current port (adopting the factory's assigned port), start the route
listener, apply a non-zero fwmark, clear cached source addresses and
start the receive routines (the routines themselves are workers outside
the state).  On bind-creation or route-listener failure the bind is
cleared and the port reset to 0; the `SetMark` failure path returns the
error with the new bind and port left in place, exactly as in the
source. -/
def BindUpdate (env : Env) (d : Device) : Device × Option Err :=
  if d.skipBindUpdate ∧ d.bind ≠ none then (d, none)
  else
    match unsafeCloseBind env d with
    | (d, some e) => (d, some e)
    | (d, none) =>
      if d.isUp then
        match env.createBind d.port with
        | none => ({ d with bind := none, port := 0 }, some Err.bindCreateFailed)
        | some (b, newPort) =>
          let d := { d with bind := some b, port := newPort }
          if env.routeListenerOk b then
            if d.fwmark ≠ 0 ∧ env.setMarkOk b d.fwmark = false then
              (d, some Err.setMarkFailed)
            else
              (clearPeerSrcs d, none)
          else
            ({ d with bind := none, port := 0 }, some Err.routeListenerFailed)
      else (d, none)

/-! ## The device state machine (`device.go` lines 141-218) -/

/-- `SendKeepalive` on a peer, observed through the device's ghost log
(the packet itself leaves the modelled state). -/
def sendKeepalive (d : Device) (k : Key) : Device :=
  { d with sentKeepalives := d.sentKeepalives ++ [k] }

/-- Update one peer of the map in place. -/
def updatePeer (d : Device) (k : Key) (f : Peer → Peer) : Device :=
  { d with peers := d.peers.map (fun e : Key × Peer =>
      if e.1 = k then (e.1, f e.2) else e) }

/-- The per-peer loop of the up transition (`device.go` lines 170-181):
start each peer, returning the peer's error immediately on failure, and
send an immediate keepalive to each started peer whose persistent
keepalive interval is positive. -/
def startPeersAux (env : Env) (d : Device) :
    List (Key × Peer) → Device × Option Err
  | [] => (d, none)
  | (k, p) :: rest =>
    if env.startOk k then
      let d := updatePeer d k Peer.start
      let d := if p.persistentKeepaliveInterval > 0 then sendKeepalive d k else d
      startPeersAux env d rest
    else (d, some (Err.peerStartFailed k))

/-- `deviceUpdateState`, `device.go` lines 141-201, with explicit fuel
for the terminal self-retriggering recursion (line 200; in this
sequential embedding the recursion always settles within two rounds).
The guard swaps `state.changing` to true; note that the two error paths
(`BindUpdate` failure, lines 165-169, and `peer.Start` failure, lines
172-176) return without clearing `state.changing`, exactly as in the
source. -/
def deviceUpdateState (env : Env) : Nat → Device → Device × Option Err
  | 0, d => (d, none)
  | fuel + 1, d =>
    if d.stateChanging then (d, none)
    else
      let d := { d with stateChanging := true }
      let newIsUp := d.isUp
      if newIsUp = d.stateCurrent then ({ d with stateChanging := false }, none)
      else
        let next : Device × Option Err :=
          if newIsUp then
            match BindUpdate env d with
            | (d, some e) => ({ d with isUp := false }, some (Err.bindUpdateWrap e))
            | (d, none) => startPeersAux env d d.peers
          else
            let d := (BindClose env d).1
            let d := { d with peers := d.peers.map (fun e : Key × Peer =>
              (e.1, e.2.stop)) }
            (d, none)
        match next with
        | (d, some e) => (d, some e)
        | (d, none) =>
          let d := { d with stateCurrent := newIsUp, stateChanging := false }
          deviceUpdateState env fuel d

/-- `Up`, `device.go` lines 203-213: a closed device cannot be brought
up; otherwise request the up state and run the transition procedure. -/
def Up (env : Env) (fuel : Nat) (d : Device) : Device × Option Err :=
  if d.isClosed then (d, some Err.deviceClosed)
  else deviceUpdateState env fuel { d with isUp := true }

/-- `Down`, `device.go` lines 215-218. -/
def Down (env : Env) (fuel : Nat) (d : Device) : Device × Option Err :=
  deviceUpdateState env fuel { d with isUp := false }

/-! ## Configuration diff-apply (`device/config.go` lines 47-161) -/

/-- One peer of a `wgcfg.Config`. -/
structure CfgPeer where
  publicKey : Key
  endpoints : GoString
  allowedIPs : List Cidr
  persistentKeepalive : Nat
deriving DecidableEq

/-- A `wgcfg.Config` as `Reconfig` consumes it. -/
structure Cfg where
  privateKey : Key
  listenPort : Nat
  peers : List CfgPeer
deriving DecidableEq

/-- Modelled from the spec: `NewPeer` (not under `src/`; spec §4.6 step
5a: "If not present, create a new Peer").  The fresh record carries the
peer's public key; its static-static precomputation against the current
private key is performed at creation in the peer subsystem. -/
def freshPeer (c : Crypto) (d : Device) (pk : Key) : Peer :=
  { remoteStatic := pk
    precomputedStaticStatic := c.dh d.privateKey pk
    lastSentHandshake := 0
    endpoint := none
    persistentKeepaliveInterval := 0
    allowedIPs := []
    keypairsExpired := false
    started := false
    stopped := false }

/-- Insertion into the `newKeepalivePeers` map (keyed by public key, so
duplicates collapse). -/
def kaInsert (k : Key) (ka : List Key) : List Key :=
  if k ∈ ka then ka else ka ++ [k]

/-- The tail of one iteration of the peer loop of `Reconfig`
(`device/config.go` lines 129-152): compare the allowed-IP sets with
`cidrsEqual`, replace the peer's list and detach its routes only when
they changed, then insert every configured prefix. -/
def finishCfgPeer (d : Device) (ka : List Key) (peer : Peer) (p : CfgPeer) :
    Device × List Key × Option Err :=
  let changed := ! cidrsEqual peer.allowedIPs p.allowedIPs
  let peer := if changed then { peer with allowedIPs := p.allowedIPs } else peer
  let d := updatePeer d p.publicKey (fun _ => peer)
  let d := if changed then { d with allowedips := aipRemoveByPeer p.publicKey d.allowedips } else d
  let d := p.allowedIPs.foldl
    (fun acc pfx => { acc with allowedips := aipInsert pfx p.publicKey acc.allowedips }) d
  (d, ka, none)

/-- The endpoint-replacement test of `device/config.go` line 109: the
configured endpoint string is non-empty and either the peer has no
endpoint or the configured string differs from the endpoint's address
list under `endpointsEqual`. -/
def epChanged (p : CfgPeer) (peer : Peer) : Bool :=
  decide (p.endpoints ≠ []) &&
    (match peer.endpoint with
     | none => true
     | some ep => ! endpointsEqual p.endpoints ep.addrs)

/-- The body of one iteration of the peer loop of `Reconfig`
(`device/config.go` lines 107-152), applied to the looked-up or fresh
peer: store the keepalive interval, and when `epChanged` holds build a
new endpoint — on failure return the error — replace the endpoint, and
when the keepalive is positive on an up device, mark the peer for
keepalive and rewind `lastSentHandshake` by `RekeyTimeout`. -/
def applyCfgPeer (env : Env) (cs : Consts) (now : Int) (d : Device)
    (ka : List Key) (peer0 : Peer) (p : CfgPeer) : Device × List Key × Option Err :=
  let peer := { peer0 with persistentKeepaliveInterval := p.persistentKeepalive }
  let d := updatePeer d p.publicKey (fun _ => peer)
  if epChanged p peer then
    let d := { d with endpointCalls := d.endpointCalls ++ [(p.publicKey, p.endpoints)] }
    match env.createEndpoint p.publicKey p.endpoints with
    | none => (d, ka, some (Err.endpointFailed p.publicKey))
    | some ep =>
      let peer := { peer with endpoint := some ep }
      let pair :=
        if p.persistentKeepalive ≠ 0 ∧ d.isUp then
          ({ peer with lastSentHandshake := now - cs.rekeyTimeout },
           kaInsert p.publicKey ka)
        else (peer, ka)
      let d := updatePeer d p.publicKey (fun _ => pair.1)
      finishCfgPeer d pair.2 pair.1 p
  else
    finishCfgPeer d ka peer p

/-- The peer loop of `Reconfig` (`device/config.go` lines 93-152),
threading the device, the `newKeepalivePeers` set and an early-exit
error. -/
def reconfigPeers (c : Crypto) (cs : Consts) (env : Env) (now : Int) :
    Device → List Key → List CfgPeer → Device × List Key × Option Err
  | d, ka, [] => (d, ka, none)
  | d, ka, p :: rest =>
    let step :=
      match LookupPeer d p.publicKey with
      | some peer => applyCfgPeer env cs now d ka peer p
      | none =>
        if env.newPeerOk p.publicKey then
          let peer := freshPeer c d p.publicKey
          let d := { d with peers := d.peers ++ [(p.publicKey, peer)] }
          let ka := if p.persistentKeepalive ≠ 0 ∧ d.isUp then kaInsert p.publicKey ka else ka
          applyCfgPeer env cs now d ka peer p
        else (d, ka, some (Err.newPeerFailed p.publicKey))
    match step with
    | (d, ka, none) => reconfigPeers c cs env now d ka rest
    | (d, ka, some e) => (d, ka, some e)

/-- The steps of `Reconfig` before `BindUpdate`
(`device/config.go` lines 56-85): remove every current peer absent from
the configuration, reset the private key when it differs, and store the
configured listen port. -/
def reconfigPre (c : Crypto) (cfg : Cfg) (d : Device) : Device :=
  let oldKeys := (d.peers.map (fun e : Key × Peer => e.1)).filter
    (fun k => ¬ cfg.peers.any (fun p => p.publicKey = k))
  let d := oldKeys.foldl RemovePeer d
  let d := if d.privateKey ≠ cfg.privateKey then (SetPrivateKey c cfg.privateKey d).1 else d
  { d with port := cfg.listenPort }

/-- `Reconfig`, `device/config.go` lines 47-161: the pre-loop steps, then
`BindUpdate` (whose failure is surfaced as the distinguished
`ErrPortInUse`), then the peer loop, then the immediate keepalives for
the marked peers.  The deferred handler of lines 49-54 removes every
peer whenever a non-nil error is returned. -/
def Reconfig (c : Crypto) (cs : Consts) (env : Env) (now : Int) (cfg : Cfg)
    (d : Device) : Device × Option Err :=
  let d := reconfigPre c cfg d
  match BindUpdate env d with
  | (d, some _) => (RemoveAllPeers d, some Err.portInUse)
  | (d, none) =>
    match reconfigPeers c cs env now d [] cfg.peers with
    | (d, ka, none) => (ka.foldl sendKeepalive d, none)
    | (d, _, some e) => (RemoveAllPeers d, some e)

/-! ## The ref-counted encryption queue (`device.go` lines 102-125, 474-479)

The queue's reference discipline is concurrent: the producers are the
per-peer outbound routines (their bodies live in `peer.go`, outside this
file's sources) plus the device's own initial reference, released by
`Close` (lines 474-477).  It is modelled as a labelled transition system
over the reference state, with the producer discipline modelled from the
spec (§4.4): every producer takes its reference while a reference is
still held (peers are only started while the device holds its own
reference), sends only while holding its reference, and releases it on
exit; the channel-closing goroutine of `newEncryptionQueue`
(lines 120-123) fires only when the count has reached zero. -/

structure EQState where
  deviceRef : Bool
  producers : Nat
  closed : Bool
  closeCount : Nat
  sends : Nat
deriving DecidableEq

/-- The total reference count held on the queue (`wg`'s counter). -/
def EQState.refs (s : EQState) : Nat :=
  s.producers + (if s.deviceRef then 1 else 0)

/-- `newEncryptionQueue` (`device.go` lines 115-125): created with one
reference — the device's own (`q.wg.Add(1)`), channel open. -/
def eqInit : EQState :=
  { deviceRef := true, producers := 0, closed := false, closeCount := 0, sends := 0 }

/-- One event of the encryption-queue discipline. -/
inductive EQStep : EQState → EQState → Prop where
  | addProducer (s : EQState) (h : 0 < s.refs) :
      EQStep s { s with producers := s.producers + 1 }
  | send (s : EQState) (h : 0 < s.producers) :
      EQStep s { s with sends := s.sends + 1 }
  | releaseProducer (s : EQState) (h : 0 < s.producers) :
      EQStep s { s with producers := s.producers - 1 }
  | releaseDevice (s : EQState) (h : s.deviceRef = true) :
      EQStep s { s with deviceRef := false }
  | closeChan (s : EQState) (h : s.refs = 0) (h2 : s.closed = false) :
      EQStep s { s with closed := true, closeCount := s.closeCount + 1 }

/-- The states the queue can reach from its creation. -/
inductive EQReach : EQState → Prop where
  | init : EQReach eqInit
  | step {s s' : EQState} : EQReach s → EQStep s s' → EQReach s'

theorem eqReach_invariant {s : EQState} (h : EQReach s) :
    (s.closed = false → s.closeCount = 0) ∧
    (s.closed = true → s.closeCount = 1 ∧ s.refs = 0) := by
  induction h with
  | init => simp [eqInit, EQState.refs]
  | step hr hst ih =>
    rename_i t t'
    cases hst with
    | addProducer hpos =>
      refine ⟨fun hc => ih.1 hc, fun hc => ?_⟩
      exact absurd (ih.2 hc).2 hpos.ne'
    | send hpos =>
      exact ⟨fun hc => ih.1 hc, fun hc => ih.2 hc⟩
    | releaseProducer hpos =>
      refine ⟨fun hc => ih.1 hc, fun hc => ?_⟩
      have hlt : 0 < t.refs := Nat.lt_of_lt_of_le hpos (Nat.le_add_right _ _)
      exact absurd (ih.2 hc).2 hlt.ne'
    | releaseDevice hdev =>
      refine ⟨fun hc => ih.1 hc, fun hc => ?_⟩
      have h0 := (ih.2 hc).2
      simp [EQState.refs, hdev] at h0
    | closeChan h0 h2 =>
      refine ⟨by simp, fun _ => ⟨by simp [ih.1 h2], ?_⟩⟩
      simpa [EQState.refs] using h0

/-! ## Sample instances used to evaluate the theorems at concrete inputs -/

/-- A sample environment in which every external call succeeds; the bind
factory hands out bind `1` on the requested port and the endpoint factory
echoes the requested address string. -/
def sampleEnv : Env :=
  { createBind := fun p => some (1, p)
    routeListenerOk := fun _ => true
    setMarkOk := fun _ _ => true
    bindCloseOk := fun _ => true
    startOk := fun _ => true
    newPeerOk := fun _ => true
    createEndpoint := fun _ s => some { addrs := s, srcCleared := false } }

/-- A sample environment whose bind factory fails. -/
def envBindFail : Env := { sampleEnv with createBind := fun _ => none }

/-- A sample environment whose `SetMark` fails. -/
def envMarkFail : Env := { sampleEnv with setMarkOk := fun _ _ => false }

/-- Sample concrete key arithmetic. -/
def sampleCrypto : Crypto :=
  { pub := fun k => k + 100, dh := fun a b => a * 1000 + b }

/-- Sample constants. -/
def sampleConsts : Consts :=
  { underLoadQueueSize := 128, underLoadAfterTime := 1, rekeyTimeout := 5 }

/-- A freshly constructed, down, empty device. -/
def sampleDevice : Device :=
  { isUp := false, isClosed := false, stateCurrent := false
    stateChanging := false, skipBindUpdate := false
    privateKey := 0, publicKey := 0, peers := [], allowedips := []
    bind := none, port := 0, fwmark := 0
    handshakeQueueLen := 0, underLoadUntil := 0
    sentKeepalives := [], endpointCalls := [] }

/-- A sample peer with remote static key 7. -/
def samplePeer : Peer :=
  { remoteStatic := 7, precomputedStaticStatic := 0, lastSentHandshake := 0
    endpoint := none, persistentKeepaliveInterval := 0, allowedIPs := []
    keypairsExpired := false, started := false, stopped := false }

/-! ## Claim C7 -/

/-- Claim C7: `IsUnderLoad` returns true exactly when the handshake queue
depth has reached `UnderLoadQueueSize` or the stored latch instant is
still after the current time, and whenever the queue-depth condition
holds it stores `now + UnderLoadAfterTime` as the new latch (otherwise
the latch is unchanged). -/
theorem C7_isUnderLoad (cs : Consts) (now : Int) (d : Device) :
    ((IsUnderLoad cs now d).1 = true ↔
      (cs.underLoadQueueSize ≤ d.handshakeQueueLen ∨ now < d.underLoadUntil)) ∧
    (IsUnderLoad cs now d).2.underLoadUntil =
      (if cs.underLoadQueueSize ≤ d.handshakeQueueLen
       then now + cs.underLoadAfterTime else d.underLoadUntil) := by
  unfold IsUnderLoad
  by_cases h : cs.underLoadQueueSize ≤ d.handshakeQueueLen <;> simp [h]

/-! ## Claim C8 -/

/-- Claim C8: `Up()` on a closed device returns the "device is closed"
error immediately, with the device state completely unchanged (in
particular `isUp` is not set and no state transition is applied). -/
theorem C8_up_closed (env : Env) (fuel : Nat) (d : Device)
    (h : d.isClosed = true) : Up env fuel d = (d, some Err.deviceClosed) := by
  simp [Up, h]

theorem C8_up_closed_witness :
    ({ sampleDevice with isClosed := true } : Device).isClosed = true ∧
    Up sampleEnv 2 { sampleDevice with isClosed := true }
      = ({ sampleDevice with isClosed := true }, some Err.deviceClosed) :=
  ⟨rfl, C8_up_closed sampleEnv 2 { sampleDevice with isClosed := true } rfl⟩

/-! ## Claim C3

The claim states that `deviceUpdateState` clears the `changing` flag on
every return path, including the `BindUpdate`-failure and
`peer.Start`-failure paths.  The source does not: on both error paths the
function returns with `state.changing` still true, after which every
later call to `deviceUpdateState` (hence every later `Up()`/`Down()`)
returns immediately without applying any transition. -/

/-- Claim C3: evaluating the code at the failing input — a fresh down
device brought `Up` in an environment whose bind factory fails — the
transition returns the error with `state.changing` left true, and a
subsequent transition attempt is a silent no-op (permanently blocked),
contradicting the claim. -/
theorem C3_changing_not_cleared :
    (Up envBindFail 2 sampleDevice).2
      = some (Err.bindUpdateWrap Err.bindCreateFailed) ∧
    (Up envBindFail 2 sampleDevice).1.stateChanging = true ∧
    deviceUpdateState envBindFail 2 (Up envBindFail 2 sampleDevice).1
      = ((Up envBindFail 2 sampleDevice).1, none) := by
  decide

/-! ## Claim C4 -/

/-- Claim C4 (counterexample): on an up device with a non-zero fwmark, in
an environment where bind creation and the route listener succeed but
`SetMark` fails, `BindUpdate` returns the error while `net.bind` is the
newly created bind (not nil) and `net.port` is the assigned port (not 0),
refuting the claim for the `SetMark` step. -/
theorem C4_counterexample :
    (BindUpdate envMarkFail
      { sampleDevice with isUp := true, fwmark := 1, port := 7 }).2
        = some Err.setMarkFailed ∧
    (BindUpdate envMarkFail
      { sampleDevice with isUp := true, fwmark := 1, port := 7 }).1.bind
        = some 1 ∧
    (BindUpdate envMarkFail
      { sampleDevice with isUp := true, fwmark := 1, port := 7 }).1.port = 7 := by
  decide

/-- Claim C4 (amended): in `BindUpdate`, once the existing bind has been
closed, a bind-creation failure or a route-listener failure leaves
`net.bind` nil and `net.port` 0 and returns the error; a failure of
applying a non-zero fwmark via `SetMark`, however, returns the error with
the newly created bind and its assigned port left in place. -/
theorem C4_amended (env : Env) (d : Device) (b : Bind) (p : Nat)
    (hskip : ¬(d.skipBindUpdate = true ∧ d.bind ≠ none))
    (hup : d.isUp = true)
    (hclose : ∀ b0, d.bind = some b0 → env.bindCloseOk b0 = true) :
    (env.createBind d.port = none →
      (BindUpdate env d).1.bind = none ∧ (BindUpdate env d).1.port = 0 ∧
      (BindUpdate env d).2 = some Err.bindCreateFailed) ∧
    (env.createBind d.port = some (b, p) → env.routeListenerOk b = false →
      (BindUpdate env d).1.bind = none ∧ (BindUpdate env d).1.port = 0 ∧
      (BindUpdate env d).2 = some Err.routeListenerFailed) ∧
    (env.createBind d.port = some (b, p) → env.routeListenerOk b = true →
      d.fwmark ≠ 0 → env.setMarkOk b d.fwmark = false →
      (BindUpdate env d).1.bind = some b ∧ (BindUpdate env d).1.port = p ∧
      (BindUpdate env d).2 = some Err.setMarkFailed) := by
  have hcb : unsafeCloseBind env d = ({ d with bind := none }, none) := by
    unfold unsafeCloseBind
    rcases hb : d.bind with _ | b0
    · have he : ({ d with bind := none } : Device) = d := by
        rw [← hb]
      simp [he]
    · simp [hclose b0 hb]
  unfold BindUpdate
  rw [if_neg hskip, hcb]
  simp only [hup, if_true]
  refine ⟨fun hcb2 => ?_, fun hcb2 hrl => ?_, fun hcb2 hrl hfw hsm => ?_⟩
  · simp [hcb2]
  · simp [hcb2, hrl]
  · simp [hcb2, hrl, hfw, hsm]

theorem C4_amended_witness :
    (¬(({ sampleDevice with isUp := true, fwmark := 1, port := 7 } : Device).skipBindUpdate = true ∧
       ({ sampleDevice with isUp := true, fwmark := 1, port := 7 } : Device).bind ≠ none)) ∧
    ({ sampleDevice with isUp := true, fwmark := 1, port := 7 } : Device).isUp = true ∧
    (BindUpdate envMarkFail
      { sampleDevice with isUp := true, fwmark := 1, port := 7 }).1.bind = some 1 ∧
    (BindUpdate envMarkFail
      { sampleDevice with isUp := true, fwmark := 1, port := 7 }).1.port = 7 ∧
    (BindUpdate envMarkFail
      { sampleDevice with isUp := true, fwmark := 1, port := 7 }).2
        = some Err.setMarkFailed := by
  refine ⟨by decide, rfl, ?_⟩
  have h := (C4_amended envMarkFail
    { sampleDevice with isUp := true, fwmark := 1, port := 7 } 1 7
    (by decide) rfl (fun b0 h => Option.noConfusion h)).2.2 rfl rfl (by decide) rfl
  exact ⟨h.1, h.2.1, h.2.2⟩

/-! ## Claim C6 -/

/-- Claim C6 (counterexample): with distinct prefixes `a = 0.0/0` and
`b = 1.0/0`, `cidrsEqual [a, b] [a, a]` returns true although the two
lists are not equal as unordered sets (`b` belongs only to the first),
and swapping the arguments returns false, so `cidrsEqual` is neither
set equality nor symmetric. -/
theorem C6_counterexample :
    cidrsEqual [⟨0, 0⟩, ⟨1, 0⟩] [⟨0, 0⟩, ⟨0, 0⟩] = true ∧
    (⟨1, 0⟩ : Cidr) ∈ ([⟨0, 0⟩, ⟨1, 0⟩] : List Cidr) ∧
    (⟨1, 0⟩ : Cidr) ∉ ([⟨0, 0⟩, ⟨0, 0⟩] : List Cidr) ∧
    cidrsEqual [⟨0, 0⟩, ⟨0, 0⟩] [⟨0, 0⟩, ⟨1, 0⟩] = false := by
  decide

/-- Claim C6 (amended): `endpointsEqual x y` is true exactly when the
comma-separated components of `x` and `y` are equal as unordered
collections (permutations); `cidrsEqual x y` is true exactly when the
lists have equal length and every element of `y` occurs in `x`, which
coincides with unordered-set equality whenever the two lists are
duplicate-free (as the allowed-IP prefix lists of a configuration are in
practice). -/
theorem C6_amended (x y : GoString) (p q : List Cidr) :
    (endpointsEqual x y = true ↔ (splitOnComma x).Perm (splitOnComma y)) ∧
    (cidrsEqual p q = true ↔ (p.length = q.length ∧ ∀ v ∈ q, v ∈ p)) ∧
    (p.Nodup → q.Nodup → (cidrsEqual p q = true ↔ ∀ v, v ∈ p ↔ v ∈ q)) :=
  ⟨endpointsEqual_iff_perm x y, cidrsEqual_iff p q,
   fun hp hq => cidrsEqual_nodup_iff p q hp hq⟩

theorem C6_amended_witness :
    ([(⟨0, 0⟩ : Cidr)] : List Cidr).Nodup ∧
    cidrsEqual [⟨0, 0⟩] [⟨0, 0⟩] = true ∧
    ((⟨0, 0⟩ : Cidr) ∈ ([⟨0, 0⟩] : List Cidr) ↔
      (⟨0, 0⟩ : Cidr) ∈ ([⟨0, 0⟩] : List Cidr)) ∧
    endpointsEqual ['a', ',', 'b'] ['b', ',', 'a'] = true :=
  ⟨by decide, by decide,
   ((C6_amended ['a', ',', 'b'] ['b', ',', 'a'] [⟨0, 0⟩] [⟨0, 0⟩]).2.2
     (by decide) (by decide)).mp (by decide) ⟨0, 0⟩,
   (C6_amended ['a', ',', 'b'] ['b', ',', 'a'] [⟨0, 0⟩] [⟨0, 0⟩]).1.mpr
     (by decide)⟩

/-! ## Claim C1 -/

theorem setPrivateKey_privateKey (c : Crypto) (sk : Key) (d : Device) :
    (SetPrivateKey c sk d).1.privateKey = sk := by
  unfold SetPrivateKey
  by_cases h : sk = d.privateKey <;> simp [h]

theorem setPrivateKey_mem_peers (c : Crypto) (sk : Key) (d : Device)
    (hne : sk ≠ d.privateKey) (pk : Key) (peer : Peer)
    (hmem : (pk, peer) ∈ (SetPrivateKey c sk d).1.peers) :
    peer.precomputedStaticStatic = c.dh sk peer.remoteStatic ∧
    peer.keypairsExpired = true := by
  unfold SetPrivateKey at hmem
  rw [if_neg hne] at hmem
  simp only [List.mem_map, List.mem_filter, Peer.expireCurrentKeypairs] at hmem
  obtain ⟨a, ⟨b, hb, hab⟩, hpa⟩ := hmem
  subst hab
  have hpeer := congrArg Prod.snd hpa
  simp only [Prod.snd] at hpeer
  rw [← hpeer]
  simp

/-- Claim C1: after `SetPrivateKey(k)` followed by `SetPrivateKey(v)`
with `k ≠ v`, every peer remaining in the peer map has
`precomputedStaticStatic = DH(v, remoteStatic)` and has had its current
keypairs expired. -/
theorem C1_setPrivateKey_twice (c : Crypto) (k v : Key) (d : Device)
    (hkv : k ≠ v) (pk : Key) (peer : Peer)
    (hmem : (pk, peer) ∈ (SetPrivateKey c v (SetPrivateKey c k d).1).1.peers) :
    peer.precomputedStaticStatic = c.dh v peer.remoteStatic ∧
    peer.keypairsExpired = true := by
  have hk : (SetPrivateKey c k d).1.privateKey = k := setPrivateKey_privateKey c k d
  exact setPrivateKey_mem_peers c v (SetPrivateKey c k d).1
    (by rw [hk]; exact fun h => hkv h.symm) pk peer hmem

/-- The peer record produced by the C1 scenario. -/
def peerC1 : Peer :=
  { samplePeer with precomputedStaticStatic := 2007, keypairsExpired := true }

/-- The device of the C1 scenario. -/
def deviceC1 : Device := { sampleDevice with peers := [(7, samplePeer)] }

theorem C1_witness :
    (1 : Key) ≠ 2 ∧
    ((7 : Key), peerC1)
      ∈ (SetPrivateKey sampleCrypto 2 (SetPrivateKey sampleCrypto 1 deviceC1).1).1.peers ∧
    peerC1.precomputedStaticStatic = sampleCrypto.dh 2 peerC1.remoteStatic ∧
    peerC1.keypairsExpired = true :=
  ⟨by decide, by decide,
   (C1_setPrivateKey_twice sampleCrypto 1 2 deviceC1 (by decide) 7 peerC1 (by decide)).1,
   (C1_setPrivateKey_twice sampleCrypto 1 2 deviceC1 (by decide) 7 peerC1 (by decide)).2⟩

/-! ## Claim C2 -/

/-- Claim C2: assuming the device invariants (the stored public key is
the one derived from the stored private key, and no peer's remote static
key equals the device's own public key), after `SetPrivateKey(k)` no
peer whose remote static key equals the new public key remains in the
peer map; each such peer has been detached from the allowed-IPs
structure, `Stop()` has been invoked on it, and its
`precomputedStaticStatic` is untouched (no recomputation was performed
for it). -/
theorem C2_self_peer_removal (c : Crypto) (sk : Key) (d : Device)
    (hpub : d.publicKey = pubOf c d.privateKey)
    (hinv : ∀ e ∈ d.peers, (e : Key × Peer).2.remoteStatic ≠ d.publicKey)
    (pk : Key) (p0 : Peer) (hmem : (pk, p0) ∈ d.peers)
    (hself : p0.remoteStatic = pubOf c sk) :
    (∀ e ∈ (SetPrivateKey c sk d).1.peers,
      (e : Key × Peer).2.remoteStatic ≠ pubOf c sk) ∧
    (∀ a ∈ (SetPrivateKey c sk d).1.allowedips, (a : Cidr × Key).2 ≠ pk) ∧
    (pk, p0.stop) ∈ (SetPrivateKey c sk d).2 ∧
    p0.stop.precomputedStaticStatic = p0.precomputedStaticStatic := by
  by_cases heq : sk = d.privateKey
  · refine absurd ?_ (hinv (pk, p0) hmem)
    show p0.remoteStatic = d.publicKey
    rw [hself, heq]
    exact hpub.symm
  · unfold SetPrivateKey
    rw [if_neg heq]
    refine ⟨?_, ?_, ?_, rfl⟩
    · intro e he
      simp only [List.mem_map, List.mem_filter, Peer.expireCurrentKeypairs] at he
      obtain ⟨a, ⟨b, hb, hab⟩, hea⟩ := he
      subst hab
      subst hea
      simp only [List.mem_filter, decide_eq_true_eq] at hb
      simpa using hb.2
    · intro a ha
      simp only [List.mem_filter, List.all_eq_true, decide_eq_true_eq] at ha
      have := ha.2 (pk, p0) (by
        simp only [List.mem_filter, decide_eq_true_eq]
        exact ⟨hmem, hself⟩)
      simp only [decide_eq_true_eq] at this
      exact fun h => this h.symm
    · simp only [List.mem_map, List.mem_filter, decide_eq_true_eq]
      exact ⟨(pk, p0), ⟨hmem, hself⟩, rfl⟩

/-- The self-peer of the C2 scenario: its remote static key equals the
public key derived from private key 3. -/
def peerC2 : Peer := { samplePeer with remoteStatic := 103 }

/-- The device of the C2 scenario, with one route owned by the self-peer. -/
def deviceC2 : Device :=
  { sampleDevice with peers := [(5, peerC2)], allowedips := [(⟨9, 9⟩, 5)] }

theorem C2_witness :
    deviceC2.publicKey = pubOf sampleCrypto deviceC2.privateKey ∧
    ((5 : Key), peerC2) ∈ deviceC2.peers ∧
    peerC2.remoteStatic = pubOf sampleCrypto 3 ∧
    ((5 : Key), peerC2.stop) ∈ (SetPrivateKey sampleCrypto 3 deviceC2).2 ∧
    peerC2.stop.precomputedStaticStatic = peerC2.precomputedStaticStatic :=
  ⟨rfl, by decide, by decide,
   (C2_self_peer_removal sampleCrypto 3 deviceC2 rfl (by decide) 5 peerC2
     (by decide) (by decide)).2.2.1,
   (C2_self_peer_removal sampleCrypto 3 deviceC2 rfl (by decide) 5 peerC2
     (by decide) (by decide)).2.2.2⟩

/-! ## Claim C9 -/

/-- Claim C9: the encryption queue is created holding exactly one
reference (the device's own); along every reachable execution of the
reference discipline the channel is closed only once the reference count
has reached zero, it is never closed twice, and while any producer still
holds its reference (so a send is possible) the channel is not closed —
no send-after-close is possible in any interleaving. -/
theorem C9_encryptionQueue (s : EQState) (hs : EQReach s) :
    eqInit.refs = 1 ∧
    (s.closed = true → s.refs = 0 ∧ s.closeCount = 1) ∧
    (s.closed = false → s.closeCount = 0) ∧
    (0 < s.producers → s.closed = false) := by
  refine ⟨rfl,
    fun hc => ⟨((eqReach_invariant hs).2 hc).2, ((eqReach_invariant hs).2 hc).1⟩,
    (eqReach_invariant hs).1, ?_⟩
  intro hprod
  rcases hcl : s.closed with _ | _
  · rfl
  · have h0 := ((eqReach_invariant hs).2 hcl).2
    exact absurd h0 (Nat.lt_of_lt_of_le hprod (Nat.le_add_right _ _)).ne'

theorem C9_witness :
    eqInit.refs = 1 ∧ eqInit.closeCount = 0 :=
  ⟨(C9_encryptionQueue eqInit EQReach.init).1,
   (C9_encryptionQueue eqInit EQReach.init).2.2.1 rfl⟩

/-! ## Claim C5 -/

theorem removeAllPeers_peers (d : Device) : (RemoveAllPeers d).peers = [] := rfl

/-- Claim C5: whenever `Reconfig` returns a non-nil error the peer map is
empty on return (the deferred handler removes all peers), and when the
`BindUpdate` step inside `Reconfig` fails the returned error is the
distinguished `ErrPortInUse`. -/
theorem C5_reconfig_error (c : Crypto) (cs : Consts) (env : Env) (now : Int)
    (cfg : Cfg) (d : Device) :
    ((Reconfig c cs env now cfg d).2 ≠ none →
      (Reconfig c cs env now cfg d).1.peers = []) ∧
    ((BindUpdate env (reconfigPre c cfg d)).2 ≠ none →
      (Reconfig c cs env now cfg d).2 = some Err.portInUse) := by
  unfold Reconfig
  rcases hbu : BindUpdate env (reconfigPre c cfg d) with ⟨d1, e1⟩
  rcases e1 with _ | e1
  · rcases hrp : reconfigPeers c cs env now d1 [] cfg.peers with ⟨d2, kae⟩
    rcases kae with ⟨ka, e2⟩
    rcases e2 with _ | e2
    · simp [hbu, hrp]
    · simp [hbu, hrp, removeAllPeers_peers]
  · simp [hbu, removeAllPeers_peers]

/-- The configuration of the C5 scenario: no peers, same private key. -/
def cfgC5 : Cfg := { privateKey := 0, listenPort := 3, peers := [] }

/-- The device of the C5 scenario: up, with one stale peer. -/
def deviceC5 : Device :=
  { sampleDevice with isUp := true, peers := [(7, samplePeer)] }

theorem C5_witness :
    (BindUpdate envBindFail (reconfigPre sampleCrypto cfgC5 deviceC5)).2 ≠ none ∧
    (Reconfig sampleCrypto sampleConsts envBindFail 0 cfgC5 deviceC5).2
      = some Err.portInUse ∧
    (Reconfig sampleCrypto sampleConsts envBindFail 0 cfgC5 deviceC5).1.peers = [] :=
  ⟨by decide,
   (C5_reconfig_error sampleCrypto sampleConsts envBindFail 0 cfgC5 deviceC5).2
     (by decide),
   (C5_reconfig_error sampleCrypto sampleConsts envBindFail 0 cfgC5 deviceC5).1
     (by decide)⟩

/-! ## Claim C10: frame lemmas for the `Reconfig` peer loop -/

theorem find_update_other (l : List (Key × Peer)) (k pk : Key) (f : Peer → Peer)
    (h : k ≠ pk) :
    (l.map (fun e : Key × Peer => if e.1 = k then (e.1, f e.2) else e)).find?
        (fun e => decide (e.1 = pk))
      = l.find? (fun e => decide (e.1 = pk)) := by
  induction l with
  | nil => rfl
  | cons a l ih =>
    rw [List.map_cons, List.find?_cons, List.find?_cons]
    by_cases hak : a.1 = k
    · rw [if_pos hak]
      have h1 : decide (((a.1, f a.2) : Key × Peer).1 = pk) = false := by
        simp only [decide_eq_false_iff_not]
        exact fun hc => h (hak.symm.trans hc)
      have h2 : decide (a.1 = pk) = false := by
        simp only [decide_eq_false_iff_not]
        exact fun hc => h (hak.symm.trans hc)
      simp only [h1, h2, ih]
    · rw [if_neg hak]
      by_cases hpk : a.1 = pk
      · have h2 : decide (a.1 = pk) = true := by
          simp only [decide_eq_true_eq]
          exact hpk
        simp only [h2]
      · have h2 : decide (a.1 = pk) = false := by
          simp only [decide_eq_false_iff_not]
          exact hpk
        simp only [h2, ih]

theorem find_update_self (l : List (Key × Peer)) (k : Key) (f : Peer → Peer) :
    (l.map (fun e : Key × Peer => if e.1 = k then (e.1, f e.2) else e)).find?
        (fun e => decide (e.1 = k))
      = (l.find? (fun e => decide (e.1 = k))).map (fun e => (e.1, f e.2)) := by
  induction l with
  | nil => rfl
  | cons a l ih =>
    rw [List.map_cons, List.find?_cons, List.find?_cons]
    by_cases hak : a.1 = k
    · rw [if_pos hak]
      have h1 : decide (((a.1, f a.2) : Key × Peer).1 = k) = true := by
        simp only [decide_eq_true_eq]
        exact hak
      have h2 : decide (a.1 = k) = true := by
        simp only [decide_eq_true_eq]
        exact hak
      simp only [h1, h2]
      rfl
    · rw [if_neg hak]
      have h2 : decide (a.1 = k) = false := by
        simp only [decide_eq_false_iff_not]
        exact hak
      simp only [h2, ih]

theorem lookupPeer_updatePeer_other (d : Device) (k pk : Key) (f : Peer → Peer)
    (h : k ≠ pk) : LookupPeer (updatePeer d k f) pk = LookupPeer d pk := by
  unfold LookupPeer updatePeer
  rw [find_update_other d.peers k pk f h]

theorem lookupPeer_updatePeer_self (d : Device) (k : Key) (f : Peer → Peer) :
    LookupPeer (updatePeer d k f) k = (LookupPeer d k).map f := by
  unfold LookupPeer updatePeer
  rw [find_update_self d.peers k f]
  cases hf : d.peers.find? (fun e => decide (e.1 = k)) <;> simp [hf]

theorem lookupPeer_append_other (d : Device) (k pk : Key) (q : Peer)
    (h : k ≠ pk) :
    LookupPeer { d with peers := d.peers ++ [(k, q)] } pk = LookupPeer d pk := by
  unfold LookupPeer
  rw [List.find?_append]
  have h1 : List.find? (fun e => decide (e.1 = pk)) [(k, q)] = none := by
    simp [List.find?_cons, h]
  rw [h1]
  cases List.find? (fun e => decide (e.1 = pk)) d.peers <;> rfl

theorem aipFoldl_fields (l : List Cidr) (k : Key) (d : Device) :
    ((l.foldl (fun acc pfx => { acc with allowedips := aipInsert pfx k acc.allowedips }) d)).peers = d.peers ∧
    ((l.foldl (fun acc pfx => { acc with allowedips := aipInsert pfx k acc.allowedips }) d)).endpointCalls = d.endpointCalls ∧
    ((l.foldl (fun acc pfx => { acc with allowedips := aipInsert pfx k acc.allowedips }) d)).sentKeepalives = d.sentKeepalives := by
  induction l generalizing d with
  | nil => exact ⟨rfl, rfl, rfl⟩
  | cons pfx l ih =>
    simp only [List.foldl_cons]
    exact ih { d with allowedips := aipInsert pfx k d.allowedips }

theorem kaInsert_mem_other (k pk : Key) (ka : List Key) (h : k ≠ pk) :
    pk ∈ kaInsert k ka ↔ pk ∈ ka := by
  unfold kaInsert
  by_cases hm : k ∈ ka
  · simp [hm]
  · simp [hm]
    exact fun hc => absurd hc.symm h

theorem kaFoldl_fields (ka : List Key) (d : Device) :
    ((ka.foldl sendKeepalive d).sentKeepalives = d.sentKeepalives ++ ka) ∧
    ((ka.foldl sendKeepalive d).peers = d.peers) ∧
    ((ka.foldl sendKeepalive d).endpointCalls = d.endpointCalls) := by
  induction ka generalizing d with
  | nil => exact ⟨(List.append_nil _).symm, rfl, rfl⟩
  | cons k ka ih =>
    simp only [List.foldl_cons]
    refine ⟨?_, (ih (sendKeepalive d k)).2.1, (ih (sendKeepalive d k)).2.2⟩
    rw [(ih (sendKeepalive d k)).1]
    simp [sendKeepalive]

theorem lookupPeer_congr (d d' : Device) (h : d.peers = d'.peers) (pk : Key) :
    LookupPeer d pk = LookupPeer d' pk := by
  unfold LookupPeer
  rw [h]

theorem finishCfgPeer_snd (d : Device) (ka : List Key) (peer : Peer)
    (q : CfgPeer) : (finishCfgPeer d ka peer q).2 = (ka, none) := rfl

theorem finishCfgPeer_fields (d : Device) (ka : List Key) (peer : Peer)
    (q : CfgPeer) :
    (finishCfgPeer d ka peer q).1.peers
      = (updatePeer d q.publicKey (fun _ =>
          if ! cidrsEqual peer.allowedIPs q.allowedIPs
          then { peer with allowedIPs := q.allowedIPs } else peer)).peers ∧
    (finishCfgPeer d ka peer q).1.endpointCalls = d.endpointCalls ∧
    (finishCfgPeer d ka peer q).1.sentKeepalives = d.sentKeepalives := by
  unfold finishCfgPeer
  rcases hch : cidrsEqual peer.allowedIPs q.allowedIPs with _ | _ <;>
  · simp only [hch, Bool.not_false, Bool.not_true, if_true, if_false]
    exact ⟨((aipFoldl_fields _ _ _).1).trans rfl,
      ((aipFoldl_fields _ _ _).2.1).trans rfl,
      ((aipFoldl_fields _ _ _).2.2).trans rfl⟩


theorem epChanged_interval (p : CfgPeer) (peer0 : Peer) (n : Nat) :
    epChanged p { peer0 with persistentKeepaliveInterval := n }
      = epChanged p peer0 := rfl

theorem epChanged_empty (p : CfgPeer) (peer : Peer) (h : p.endpoints = []) :
    epChanged p peer = false := by
  unfold epChanged
  simp [h]

theorem applyCfgPeer_frame (env : Env) (cs : Consts) (now : Int) (d : Device)
    (ka : List Key) (peer0 : Peer) (q : CfgPeer) (pk : Key)
    (h : q.publicKey ≠ pk) :
    LookupPeer (applyCfgPeer env cs now d ka peer0 q).1 pk = LookupPeer d pk ∧
    (applyCfgPeer env cs now d ka peer0 q).1.endpointCalls.filter
        (fun e => e.1 = pk)
      = d.endpointCalls.filter (fun e => e.1 = pk) ∧
    (applyCfgPeer env cs now d ka peer0 q).1.sentKeepalives = d.sentKeepalives ∧
    (pk ∈ (applyCfgPeer env cs now d ka peer0 q).2.1 ↔ pk ∈ ka) := by
  unfold applyCfgPeer
  rcases hep : epChanged q { peer0 with persistentKeepaliveInterval := q.persistentKeepalive } with _ | _
  · simp only [hep, Bool.false_eq_true, if_false]
    refine ⟨?_, ?_, ?_, ?_⟩
    · rw [lookupPeer_congr _ _ (finishCfgPeer_fields _ _ _ _).1 pk,
        lookupPeer_updatePeer_other _ _ _ _ h,
        lookupPeer_updatePeer_other _ _ _ _ h]
    · rw [(finishCfgPeer_fields _ _ _ _).2.1]
      rfl
    · rw [(finishCfgPeer_fields _ _ _ _).2.2]
      rfl
    · rw [finishCfgPeer_snd]
  · simp only [hep, if_true]
    rcases hce : env.createEndpoint q.publicKey q.endpoints with _ | ep
    · simp only [hce]
      refine ⟨?_, ?_, ?_, ?_⟩
      · show LookupPeer (updatePeer d q.publicKey
            (fun _ => ({ peer0 with
              persistentKeepaliveInterval := q.persistentKeepalive } : Peer))) pk
          = LookupPeer d pk
        exact lookupPeer_updatePeer_other _ _ _ _ h
      · simp [updatePeer, List.filter_append, h]
      · rfl
      · simp
    · simp only [hce]
      split
      · refine ⟨?_, ?_, ?_, ?_⟩
        · rw [lookupPeer_congr _ _ (finishCfgPeer_fields _ _ _ _).1 pk,
            lookupPeer_updatePeer_other _ _ _ _ h,
            lookupPeer_updatePeer_other _ _ _ _ h]
          show LookupPeer (updatePeer d q.publicKey
              (fun _ => ({ peer0 with
                persistentKeepaliveInterval := q.persistentKeepalive } : Peer))) pk
            = LookupPeer d pk
          exact lookupPeer_updatePeer_other _ _ _ _ h
        · rw [(finishCfgPeer_fields _ _ _ _).2.1]
          simp [updatePeer, List.filter_append, h]
        · rw [(finishCfgPeer_fields _ _ _ _).2.2]
          try rfl
        · rw [finishCfgPeer_snd]
          exact kaInsert_mem_other _ _ _ h
      · refine ⟨?_, ?_, ?_, ?_⟩
        · rw [lookupPeer_congr _ _ (finishCfgPeer_fields _ _ _ _).1 pk,
            lookupPeer_updatePeer_other _ _ _ _ h,
            lookupPeer_updatePeer_other _ _ _ _ h]
          show LookupPeer (updatePeer d q.publicKey
              (fun _ => ({ peer0 with
                persistentKeepaliveInterval := q.persistentKeepalive } : Peer))) pk
            = LookupPeer d pk
          exact lookupPeer_updatePeer_other _ _ _ _ h
        · rw [(finishCfgPeer_fields _ _ _ _).2.1]
          simp [updatePeer, List.filter_append, h]
        · rw [(finishCfgPeer_fields _ _ _ _).2.2]
          try rfl
        · rw [finishCfgPeer_snd]

theorem applyCfgPeer_empty (env : Env) (cs : Consts) (now : Int) (d : Device)
    (ka : List Key) (peer0 : Peer) (q : CfgPeer)
    (hempty : q.endpoints = []) (hlook : LookupPeer d q.publicKey = some peer0) :
    (applyCfgPeer env cs now d ka peer0 q).2 = (ka, none) ∧
    (LookupPeer (applyCfgPeer env cs now d ka peer0 q).1 q.publicKey).map
        Peer.endpoint = some peer0.endpoint ∧
    (LookupPeer (applyCfgPeer env cs now d ka peer0 q).1 q.publicKey).map
        Peer.lastSentHandshake = some peer0.lastSentHandshake ∧
    (applyCfgPeer env cs now d ka peer0 q).1.endpointCalls = d.endpointCalls ∧
    (applyCfgPeer env cs now d ka peer0 q).1.sentKeepalives = d.sentKeepalives := by
  unfold applyCfgPeer
  have hep : epChanged q
      { peer0 with persistentKeepaliveInterval := q.persistentKeepalive } = false :=
    epChanged_empty _ _ hempty
  simp only [hep, Bool.false_eq_true, if_false]
  refine ⟨finishCfgPeer_snd _ _ _ _, ?_, ?_, ?_, ?_⟩
  · rw [lookupPeer_congr _ _ (finishCfgPeer_fields _ _ _ _).1 q.publicKey,
      lookupPeer_updatePeer_self, lookupPeer_updatePeer_self, hlook]
    rcases hch : cidrsEqual peer0.allowedIPs q.allowedIPs with _ | _ <;>
      simp [hch]
  · rw [lookupPeer_congr _ _ (finishCfgPeer_fields _ _ _ _).1 q.publicKey,
      lookupPeer_updatePeer_self, lookupPeer_updatePeer_self, hlook]
    rcases hch : cidrsEqual peer0.allowedIPs q.allowedIPs with _ | _ <;>
      simp [hch]
  · rw [(finishCfgPeer_fields _ _ _ _).2.1]
    try rfl
  · rw [(finishCfgPeer_fields _ _ _ _).2.2]
    try rfl

theorem reconfigPeers_frame (c : Crypto) (cs : Consts) (env : Env) (now : Int)
    (pk : Key) :
    ∀ (l : List CfgPeer) (d : Device) (ka : List Key),
    (∀ q ∈ l, q.publicKey ≠ pk) →
    LookupPeer (reconfigPeers c cs env now d ka l).1 pk = LookupPeer d pk ∧
    (reconfigPeers c cs env now d ka l).1.endpointCalls.filter
        (fun e => e.1 = pk)
      = d.endpointCalls.filter (fun e => e.1 = pk) ∧
    (reconfigPeers c cs env now d ka l).1.sentKeepalives = d.sentKeepalives ∧
    (pk ∈ (reconfigPeers c cs env now d ka l).2.1 ↔ pk ∈ ka) := by
  intro l
  induction l with
  | nil => exact fun d ka _ => ⟨rfl, rfl, rfl, Iff.rfl⟩
  | cons q l ih =>
    intro d ka hq
    have hqpk : q.publicKey ≠ pk := hq q (by simp)
    have hlq : ∀ r ∈ l, r.publicKey ≠ pk := fun r hr => hq r (by simp [hr])
    unfold reconfigPeers
    rcases hlook : LookupPeer d q.publicKey with _ | peer
    · simp only [hlook]
      rcases hnp : env.newPeerOk q.publicKey with _ | _
      · simp [hnp]
      · simp only [hnp, if_true]
        set d2 : Device :=
          { d with peers := d.peers ++ [(q.publicKey, freshPeer c d q.publicKey)] } with hd2
        set ka2 : List Key :=
          if q.persistentKeepalive ≠ 0 ∧ d2.isUp = true
          then kaInsert q.publicKey ka else ka with hka2
        have happ := applyCfgPeer_frame env cs now d2 ka2
          (freshPeer c d q.publicKey) q pk hqpk
        have hl2 : LookupPeer d2 pk = LookupPeer d pk :=
          lookupPeer_append_other d q.publicKey pk _ hqpk
        have hka2m : pk ∈ ka2 ↔ pk ∈ ka := by
          rw [hka2]
          split
          · exact kaInsert_mem_other _ _ _ hqpk
          · exact Iff.rfl
        rcases hstep : applyCfgPeer env cs now d2 ka2 (freshPeer c d q.publicKey) q
          with ⟨d3, ka3, e3⟩
        rw [hstep] at happ
        rcases e3 with _ | e3
        · have hrec := ih d3 ka3 hlq
          refine ⟨?_, ?_, ?_, ?_⟩
          · rw [hrec.1, happ.1, hl2]
          · rw [hrec.2.1, happ.2.1]
          · rw [hrec.2.2.1, happ.2.2.1]
          · rw [hrec.2.2.2]
            exact happ.2.2.2.trans hka2m
        · refine ⟨?_, ?_, ?_, ?_⟩
          · rw [happ.1, hl2]
          · rw [happ.2.1]
          · rw [happ.2.2.1]
          · exact happ.2.2.2.trans hka2m
    · simp only [hlook]
      have happ := applyCfgPeer_frame env cs now d ka peer q pk hqpk
      rcases hstep : applyCfgPeer env cs now d ka peer q with ⟨d3, ka3, e3⟩
      rw [hstep] at happ
      rcases e3 with _ | e3
      · have hrec := ih d3 ka3 hlq
        refine ⟨?_, ?_, ?_, ?_⟩
        · rw [hrec.1, happ.1]
        · rw [hrec.2.1, happ.2.1]
        · rw [hrec.2.2.1, happ.2.2.1]
        · exact hrec.2.2.2.trans happ.2.2.2
      · exact happ

theorem reconfigPeers_cons (c : Crypto) (cs : Consts) (env : Env) (now : Int)
    (d : Device) (ka : List Key) (q : CfgPeer) (l : List CfgPeer) :
    reconfigPeers c cs env now d ka (q :: l)
      = (match
          (match LookupPeer d q.publicKey with
           | some peer => applyCfgPeer env cs now d ka peer q
           | none =>
             if env.newPeerOk q.publicKey then
               applyCfgPeer env cs now
                 { d with peers := d.peers ++ [(q.publicKey, freshPeer c d q.publicKey)] }
                 (if q.persistentKeepalive ≠ 0 ∧
                     ({ d with peers := d.peers ++
                         [(q.publicKey, freshPeer c d q.publicKey)] } : Device).isUp = true
                  then kaInsert q.publicKey ka else ka)
                 (freshPeer c d q.publicKey) q
             else (d, ka, some (Err.newPeerFailed q.publicKey))) with
         | (d', ka', none) => reconfigPeers c cs env now d' ka' l
         | (d', ka', some e) => (d', ka', some e)) := rfl

theorem reconfigPeers_append_ok (c : Crypto) (cs : Consts) (env : Env)
    (now : Int) :
    ∀ (l1 : List CfgPeer) (l2 : List CfgPeer) (d d1 : Device)
      (ka ka1 : List Key),
    reconfigPeers c cs env now d ka l1 = (d1, ka1, none) →
    reconfigPeers c cs env now d ka (l1 ++ l2)
      = reconfigPeers c cs env now d1 ka1 l2 := by
  intro l1
  induction l1 with
  | nil =>
    intro l2 d d1 ka ka1 h
    unfold reconfigPeers at h
    cases h
    rfl
  | cons q l1 ih =>
    intro l2 d d1 ka ka1 h
    rw [List.cons_append, reconfigPeers_cons] at *
    rcases hlook : LookupPeer d q.publicKey with _ | peer <;>
      simp only [hlook] at h ⊢
    · rcases hnp : env.newPeerOk q.publicKey with _ | _ <;>
        simp only [hnp, Bool.false_eq_true, if_false, if_true] at h ⊢
      · exact absurd (congrArg (fun t => t.2.2) h) (by simp)
      · rcases hstep : applyCfgPeer env cs now
            { d with peers := d.peers ++ [(q.publicKey, freshPeer c d q.publicKey)] }
            (if q.persistentKeepalive ≠ 0 ∧ d.isUp = true
             then kaInsert q.publicKey ka else ka)
            (freshPeer c d q.publicKey) q with ⟨d3, ka3, e3⟩
        rw [hstep] at h
        rcases e3 with _ | e3
        · exact ih l2 d3 d1 ka3 ka1 h
        · cases h
    · rcases hstep : applyCfgPeer env cs now d ka peer q with ⟨d3, ka3, e3⟩
      rw [hstep] at h
      rcases e3 with _ | e3
      · exact ih l2 d3 d1 ka3 ka1 h
      · cases h

theorem reconfigPeers_append_err (c : Crypto) (cs : Consts) (env : Env)
    (now : Int) :
    ∀ (l1 : List CfgPeer) (l2 : List CfgPeer) (d d1 : Device)
      (ka ka1 : List Key) (e : Err),
    reconfigPeers c cs env now d ka l1 = (d1, ka1, some e) →
    reconfigPeers c cs env now d ka (l1 ++ l2) = (d1, ka1, some e) := by
  intro l1
  induction l1 with
  | nil =>
    intro l2 d d1 ka ka1 e h
    unfold reconfigPeers at h
    cases h
  | cons q l1 ih =>
    intro l2 d d1 ka ka1 e h
    rw [List.cons_append, reconfigPeers_cons] at *
    rcases hlook : LookupPeer d q.publicKey with _ | peer <;>
      simp only [hlook] at h ⊢
    · rcases hnp : env.newPeerOk q.publicKey with _ | _ <;>
        simp only [hnp, Bool.false_eq_true, if_false, if_true] at h ⊢
      · exact h
      · rcases hstep : applyCfgPeer env cs now
            { d with peers := d.peers ++ [(q.publicKey, freshPeer c d q.publicKey)] }
            (if q.persistentKeepalive ≠ 0 ∧ d.isUp = true
             then kaInsert q.publicKey ka else ka)
            (freshPeer c d q.publicKey) q with ⟨d3, ka3, e3⟩
        rw [hstep] at h
        rcases e3 with _ | e3
        · exact ih l2 d3 d1 ka3 ka1 e h
        · exact h
    · rcases hstep : applyCfgPeer env cs now d ka peer q with ⟨d3, ka3, e3⟩
      rw [hstep] at h
      rcases e3 with _ | e3
      · exact ih l2 d3 d1 ka3 ka1 e h
      · exact h

/-- Claim C10: for every configured peer whose `Endpoints` string is
empty and which is present in the device when the peer loop starts (the
state after `BindUpdate`), a successful `Reconfig` leaves that peer's
endpoint and `lastSentHandshake` untouched, performs no
`createEndpoint` call for that peer, and sends it no keepalive on
account of the endpoint. -/
theorem C10_reconfig_empty_endpoint (c : Crypto) (cs : Consts) (env : Env)
    (now : Int) (cfg : Cfg) (d : Device) (p : CfgPeer) (peer0 : Peer)
    (hnodup : (cfg.peers.map CfgPeer.publicKey).Nodup)
    (hp : p ∈ cfg.peers) (hempty : p.endpoints = [])
    (hbu : (BindUpdate env (reconfigPre c cfg d)).2 = none)
    (hlook : LookupPeer (BindUpdate env (reconfigPre c cfg d)).1 p.publicKey
      = some peer0)
    (hok : (Reconfig c cs env now cfg d).2 = none) :
    (LookupPeer (Reconfig c cs env now cfg d).1 p.publicKey).map Peer.endpoint
      = some peer0.endpoint ∧
    (LookupPeer (Reconfig c cs env now cfg d).1 p.publicKey).map
        Peer.lastSentHandshake = some peer0.lastSentHandshake ∧
    (Reconfig c cs env now cfg d).1.endpointCalls.filter
        (fun e => e.1 = p.publicKey)
      = (BindUpdate env (reconfigPre c cfg d)).1.endpointCalls.filter
          (fun e => e.1 = p.publicKey) ∧
    (Reconfig c cs env now cfg d).1.sentKeepalives.filter
        (fun k => k = p.publicKey)
      = (BindUpdate env (reconfigPre c cfg d)).1.sentKeepalives.filter
          (fun k => k = p.publicKey) := by
  obtain ⟨l1, l2, hsplit⟩ := List.append_of_mem hp
  have hmap : cfg.peers.map CfgPeer.publicKey
      = l1.map CfgPeer.publicKey ++ p.publicKey :: l2.map CfgPeer.publicKey := by
    rw [hsplit]
    simp
  rw [hmap, List.nodup_append] at hnodup
  have hpk1 : ∀ q ∈ l1, q.publicKey ≠ p.publicKey := by
    intro q hq hc
    exact hnodup.2.2 (List.mem_map_of_mem _ hq) (by simp [hc])
  have hpk2 : ∀ q ∈ l2, q.publicKey ≠ p.publicKey := by
    intro q hq hc
    exact (List.nodup_cons.mp hnodup.2.1).1 (hc ▸ List.mem_map_of_mem _ hq)
  have hbu' : BindUpdate env (reconfigPre c cfg d)
      = ((BindUpdate env (reconfigPre c cfg d)).1, none) := Prod.ext rfl hbu
  have hre : Reconfig c cs env now cfg d
      = (match reconfigPeers c cs env now
          (BindUpdate env (reconfigPre c cfg d)).1 [] cfg.peers with
         | (dx, kax, none) => (kax.foldl sendKeepalive dx, none)
         | (dx, _, some e) => (RemoveAllPeers dx, some e)) := by
    simp only [Reconfig]
    rw [hbu']
  rcases hrp : reconfigPeers c cs env now
      (BindUpdate env (reconfigPre c cfg d)).1 [] cfg.peers with ⟨d2, ka2, e2⟩
  rw [hrp] at hre
  rcases e2 with _ | e2
  case some =>
    have hre2 : Reconfig c cs env now cfg d = (RemoveAllPeers d2, some e2) := hre
    rw [hre2] at hok
    exact Option.noConfusion hok
  have hre2 : Reconfig c cs env now cfg d
      = (ka2.foldl sendKeepalive d2, none) := hre
  simp only [hre2]
  rw [hsplit] at hrp
  rcases h1 : reconfigPeers c cs env now
      (BindUpdate env (reconfigPre c cfg d)).1 [] l1 with ⟨dA, kaA, eA⟩
  rcases eA with _ | eA
  case some =>
    rw [reconfigPeers_append_err c cs env now l1 (p :: l2) _ dA [] kaA eA h1]
      at hrp
    cases hrp
  rw [reconfigPeers_append_ok c cs env now l1 (p :: l2) _ dA [] kaA h1] at hrp
  have hf1 := reconfigPeers_frame c cs env now p.publicKey l1
    (BindUpdate env (reconfigPre c cfg d)).1 [] hpk1
  rw [h1] at hf1
  have hlookA : LookupPeer dA p.publicKey = some peer0 := hf1.1.trans hlook
  have hkaA : p.publicKey ∉ kaA := fun hc => by simpa using hf1.2.2.2.mp hc
  have happ := applyCfgPeer_empty env cs now dA kaA peer0 p hempty hlookA
  rw [reconfigPeers_cons] at hrp
  simp only [hlookA] at hrp
  rcases hstep : applyCfgPeer env cs now dA kaA peer0 p with ⟨dB, kaB, eB⟩
  rw [hstep] at hrp happ
  have hkb : kaB = kaA ∧ eB = none := by simpa using happ.1
  obtain ⟨hkb1, hkb2⟩ := hkb
  have hkb1s : kaA = kaB := hkb1.symm
  subst hkb1s
  subst hkb2
  have hrp2 : reconfigPeers c cs env now dB kaA l2 = (d2, ka2, none) := hrp
  have hf2 := reconfigPeers_frame c cs env now p.publicKey l2 dB kaA hpk2
  rw [hrp2] at hf2
  have hka2 : p.publicKey ∉ ka2 := fun hc => hkaA (hf2.2.2.2.mp hc)
  have hepB : (LookupPeer dB p.publicKey).map Peer.endpoint
      = some peer0.endpoint := happ.2.1
  have hlsB : (LookupPeer dB p.publicKey).map Peer.lastSentHandshake
      = some peer0.lastSentHandshake := happ.2.2.1
  have hecB : dB.endpointCalls = dA.endpointCalls := happ.2.2.2.1
  have hskB : dB.sentKeepalives = dA.sentKeepalives := happ.2.2.2.2
  refine ⟨?_, ?_, ?_, ?_⟩
  · rw [lookupPeer_congr _ d2 (kaFoldl_fields ka2 d2).2.1 p.publicKey,
      hf2.1, hepB]
  · rw [lookupPeer_congr _ d2 (kaFoldl_fields ka2 d2).2.1 p.publicKey,
      hf2.1, hlsB]
  · rw [(kaFoldl_fields ka2 d2).2.2, hf2.2.1, hecB, hf1.2.1]
  · rw [(kaFoldl_fields ka2 d2).1, List.filter_append, hf2.2.2.1, hskB,
      hf1.2.2.1]
    have hnil : ka2.filter (fun k => decide (k = p.publicKey)) = [] := by
      rw [List.filter_eq_nil_iff]
      intro a ha
      simp only [decide_eq_true_eq]
      exact fun hc => hka2 (hc ▸ ha)
    rw [hnil, List.append_nil]

/-- The peer of the C10 scenario: it already has an endpoint and a
handshake timestamp. -/
def peerC10 : Peer :=
  { samplePeer with endpoint := some { addrs := ['x'], srcCleared := false },
                    lastSentHandshake := 42 }

/-- The device of the C10 scenario. -/
def deviceC10 : Device := { sampleDevice with peers := [(7, peerC10)] }

/-- The configuration of the C10 scenario: peer 7 with an empty
endpoint string. -/
def cfgC10 : Cfg :=
  { privateKey := 0, listenPort := 0
    peers := [{ publicKey := 7, endpoints := [], allowedIPs := []
                persistentKeepalive := 0 }] }

theorem C10_witness :
    (cfgC10.peers.map CfgPeer.publicKey).Nodup ∧
    ({ publicKey := 7, endpoints := [], allowedIPs := []
       persistentKeepalive := 0 } : CfgPeer) ∈ cfgC10.peers ∧
    (BindUpdate sampleEnv (reconfigPre sampleCrypto cfgC10 deviceC10)).2 = none ∧
    LookupPeer (BindUpdate sampleEnv
        (reconfigPre sampleCrypto cfgC10 deviceC10)).1 7 = some peerC10 ∧
    (Reconfig sampleCrypto sampleConsts sampleEnv 0 cfgC10 deviceC10).2 = none ∧
    (LookupPeer (Reconfig sampleCrypto sampleConsts sampleEnv 0 cfgC10
        deviceC10).1 7).map Peer.endpoint = some peerC10.endpoint ∧
    (LookupPeer (Reconfig sampleCrypto sampleConsts sampleEnv 0 cfgC10
        deviceC10).1 7).map Peer.lastSentHandshake
      = some peerC10.lastSentHandshake ∧
    (Reconfig sampleCrypto sampleConsts sampleEnv 0 cfgC10
        deviceC10).1.endpointCalls.filter (fun e => e.1 = 7)
      = (BindUpdate sampleEnv
          (reconfigPre sampleCrypto cfgC10 deviceC10)).1.endpointCalls.filter
            (fun e => e.1 = 7) ∧
    (Reconfig sampleCrypto sampleConsts sampleEnv 0 cfgC10
        deviceC10).1.sentKeepalives.filter (fun k => k = 7)
      = (BindUpdate sampleEnv
          (reconfigPre sampleCrypto cfgC10 deviceC10)).1.sentKeepalives.filter
            (fun k => k = 7) := by
  have h := C10_reconfig_empty_endpoint sampleCrypto sampleConsts sampleEnv 0
    cfgC10 deviceC10
    { publicKey := 7, endpoints := [], allowedIPs := [], persistentKeepalive := 0 }
    peerC10 (by decide) (by decide) rfl (by decide) (by decide) (by decide)
  exact ⟨by decide, by decide, by decide, by decide, by decide,
    h.1, h.2.1, h.2.2.1, h.2.2.2⟩
